import Mathlib

/-!
Verification of the memory-management core and file-system syscall layer of
the rCore kernel (src/src/memory.rs and src/kernel/src/syscall/fs.rs),
as a shallow embedding in Lean 4.

Machine integers are modelled as Nat; the address arithmetic involved never
overflows in the claims considered. Locks disappear in this sequential
embedding: each operation acts on an explicit state value. A Rust panic
(unwrap of None) is modelled by an Option-valued result, none standing for
the panic.
-/

namespace RCore

/-- Modelled from the spec: the bit allocator `BitAlloc64K` from the
`bit_allocator` crate is not under src/. Per the spec it wraps a
fixed-capacity bitmap (capacity = 64K frames); `alloc` finds and marks the
lowest free bit, returning none when exhausted; `dealloc` clears the bit.
The state is the allocated-bit predicate: `s i = true` iff frame id `i` is
currently allocated. -/
abbrev BitAlloc64K : Type := Nat → Bool

/-- Capacity of `BitAlloc64K`: 64K frames. -/
def BITALLOC_CAP : Nat := 65536

/-- Search upward from index `i` with the given fuel for the first index
whose bit is clear. With fuel covering the whole bitmap this is the
lowest-free-bit search of the bit allocator. -/
def findFreeFrom (s : Nat → Bool) : Nat → Nat → Option Nat
  | _, 0 => none
  | i, fuel + 1 => if s i then findFreeFrom s (i + 1) fuel else some i

/-- Pointwise update of one bit of the bitmap. -/
def setBit (s : Nat → Bool) (id : Nat) (b : Bool) : Nat → Bool :=
  fun j => if j = id then b else s j

/-- Modelled from the spec: `BitAlloc64K.alloc` finds and marks the lowest
free bit, returning none when exhausted. Returns the frame id together with
the updated bitmap state. -/
def bitalloc (s : BitAlloc64K) : Option (Nat × BitAlloc64K) :=
  match findFreeFrom s 0 BITALLOC_CAP with
  | none => none
  | some id => some (id, setBit s id true)

/-- Modelled from the spec: `BitAlloc64K.dealloc` clears the bit of the
given frame id. -/
def bitdealloc (s : BitAlloc64K) (id : Nat) : BitAlloc64K :=
  setBit s id false

/-- Number of free frames among the `BITALLOC_CAP` managed ids. -/
def freeCount (s : BitAlloc64K) : Nat :=
  ((List.range BITALLOC_CAP).filter (fun i => !(s i))).length

/-- `PAGE_SIZE` from the arch constants module (not under src/); reference
value 4096 bytes, as used by both architectures of the repository. -/
def PAGE_SIZE : Nat := 4096

/-- `MEMORY_OFFSET` from the consts module (not under src/): the fixed
linear offset of the frame-id to physical-address translation. Reference
value; the claims hold for any value of this constant. -/
def MEMORY_OFFSET : Nat := 0x80000000

/-- Embedding of `alloc_frame` (src/src/memory.rs):
`FRAME_ALLOCATOR.lock().alloc().map(|id| id * PAGE_SIZE + MEMORY_OFFSET)`.
State passing replaces the global lock: the result carries the updated
allocator state. -/
def alloc_frame (s : BitAlloc64K) : Option (Nat × BitAlloc64K) :=
  (bitalloc s).map (fun p => (p.1 * PAGE_SIZE + MEMORY_OFFSET, p.2))

/-- Embedding of `dealloc_frame` (src/src/memory.rs):
`FRAME_ALLOCATOR.lock().dealloc((target - MEMORY_OFFSET) / PAGE_SIZE)`. -/
def dealloc_frame (s : BitAlloc64K) (target : Nat) : BitAlloc64K :=
  bitdealloc s ((target - MEMORY_OFFSET) / PAGE_SIZE)

/-- The `Stack` type re-exported by src/src/memory.rs: a pair (top, bottom)
of virtual addresses. -/
structure Stack where
  top : Nat
  bottom : Nat

/-- `STACK_SIZE` from `alloc_stack` (src/src/memory.rs): 0x8000 bytes. -/
def STACK_SIZE : Nat := 0x8000

/-- The kernel heap, reduced to the multiset of live allocation base
addresses; enough to express that `alloc_stack` leaks its allocation. -/
structure HeapState where
  live : List Nat

/-- Embedding of `alloc_stack` (src/src/memory.rs): `Box::new` obtains from
the heap allocator a fresh base address for a `#[repr(align(0x8000))]`
buffer of `STACK_SIZE` bytes; `Box::into_raw` leaks it, so the allocation
stays live. The base address chosen by the heap allocator is the parameter
`bottom`; the Rust allocation contract for the repr(align) type constrains
it to `bottom % 0x8000 = 0` (stated as a hypothesis of the theorems). -/
def alloc_stack (h : HeapState) (bottom : Nat) : Stack × HeapState :=
  ({ top := bottom + STACK_SIZE, bottom := bottom }, { live := bottom :: h.live })

/-- Classification of the fault address by the active address space, as
consulted by the COW extension: not covered by any area, covered by a
non-COW area, or covered by a COW area sharing the given frame. -/
inductive CowArea where
  | notCovered : CowArea
  | nonCow : CowArea
  | cow : Nat → CowArea

/-- Embedding of `page_fault_handler` for x86_64 (src/src/memory.rs):
`active_table().page_fault_handler(addr, || alloc_frame().unwrap())`.
The COW extension (`ucore_memory::cow::CowExt`, not under src/) is
modelled from the spec: look up the area covering the address; if none
covers it or it is not COW, report unhandled (false); if COW, obtain a
frame from the supplied closure, copy and remap, and report handled
(true). The closure in src is `alloc_frame().unwrap()`: unwrap of None
is a kernel panic, modelled as the `none` result; `some b` is a normal
return of `b`. -/
def page_fault_handler_x86 (areaAt : Nat → CowArea) (s : BitAlloc64K)
    (addr : Nat) : Option Bool :=
  match areaAt addr with
  | CowArea.notCovered => some false
  | CowArea.nonCow => some false
  | CowArea.cow _ =>
    match alloc_frame s with
    | none => none
    | some _ => some true

/-- Embedding of `page_fault_handler` for riscv (src/src/memory.rs):
returns false unconditionally. -/
def page_fault_handler_riscv (addr : Nat) : Bool :=
  false

/- Embedding of src/kernel/src/syscall/fs.rs. The memory-set checks
(`check_mut_array`, `check_array`, `check_and_clone_cstr`) and the VFS are
external collaborators of that file; they appear as abstract functions in
the process state and as function parameters. The file table
(`BTreeMap<usize, FileHandle>`) is an association list without duplicate
keys; `α` is the abstract type of `FileHandle`. -/

/-- `SysError` of the syscall layer (the variants the embedded syscalls
produce; every other variant is collapsed into `other`). -/
inductive SysError where
  | Inval : SysError
  | Exists : SysError
  | other : SysError

/-- The caller process state visible to the embedded syscalls: the
memory-set pointer checks and the file table. `writable base len` is
`memory_set.check_mut_array(base, len)`, `readable base len` is
`memory_set.check_array(base, len)`, and `cstr p` is
`memory_set.check_and_clone_cstr(p)` (the copied kernel-owned bytes on
success). -/
structure ProcState (α : Type) where
  readable : Nat → Nat → Bool
  writable : Nat → Nat → Bool
  cstr : Nat → Option (List Nat)
  files : List (Nat × α)

/-- `BTreeMap::insert`: bind the key to the value, replacing any previous
binding. -/
def mapInsert (k : Nat) (v : α) (l : List (Nat × α)) : List (Nat × α) :=
  (k, v) :: l.filter (fun p => p.1 != k)

/-- Embedding of `sys_read` (src/kernel/src/syscall/fs.rs): validate the
buffer as writable, else `Err(Inval)`; look up the file descriptor
(`get_file`), else `Err(Inval)`; then `file.read(slice)`. The read itself
only touches the file handle and the user buffer; it is the abstract
`readF`, returning the byte count and the updated handle, or an error.
The result pairs the syscall return with the resulting file table. -/
def sys_read (proc : ProcState α) (fd : Nat) (base len : Nat)
    (readF : α → Except SysError (Nat × α)) :
    Except SysError Int × List (Nat × α) :=
  if !(proc.writable base len) then (Except.error SysError.Inval, proc.files)
  else
    match proc.files.lookup fd with
    | none => (Except.error SysError.Inval, proc.files)
    | some f =>
      match readF f with
      | Except.error e => (Except.error e, proc.files)
      | Except.ok (n, f2) => (Except.ok (Int.ofNat n), mapInsert fd f2 proc.files)

/-- Embedding of `sys_write` (src/kernel/src/syscall/fs.rs): validate the
buffer as readable, else `Err(Inval)`; look up the file descriptor, else
`Err(Inval)`; then `file.write(slice)` (the abstract `writeF`). -/
def sys_write (proc : ProcState α) (fd : Nat) (base len : Nat)
    (writeF : α → Except SysError (Nat × α)) :
    Except SysError Int × List (Nat × α) :=
  if !(proc.readable base len) then (Except.error SysError.Inval, proc.files)
  else
    match proc.files.lookup fd with
    | none => (Except.error SysError.Inval, proc.files)
    | some f =>
      match writeF f with
      | Except.error e => (Except.error e, proc.files)
      | Except.ok (n, f2) => (Except.ok (Int.ofNat n), mapInsert fd f2 proc.files)

/-- Largest key of the file table (0 when empty); only used to size the
fuel of the file-descriptor search. -/
def maxKey (keys : List Nat) : Nat :=
  keys.foldr max 0

/-- Embedding of `(3..).find(|i| !proc.files.contains_key(i))` from
`sys_open`: the smallest file descriptor, counting up from 3, that is not
a key of the file table. The Rust iterator is unbounded; the search is
given enough fuel to pass the largest key, past which every descriptor is
free, and it is proved below to always return `some`. -/
def findFreeFd (keys : List Nat) : Option Nat :=
  findFreeFrom (fun i => decide (i ∈ keys)) 3 (maxKey keys + 2)

/-- Embedding of `sys_open` (src/kernel/src/syscall/fs.rs): validate and
copy the path string (`check_and_clone_cstr`), else `Err(Inval)`; obtain
the inode from the VFS (the whole flag-dependent block — CREATE /
EXCLUSIVE handling, `ROOT_INODE` lookups — only consults the external
file system and is the abstract `getInode`); pick the smallest free file
descriptor from 3 up; insert the new handle (`FileHandle::new`, the
abstract `mkHandle`) under it and return it. -/
def sys_open (proc : ProcState α) (getInode : List Nat → Except SysError ι)
    (mkHandle : ι → α) (path : Nat) :
    Except SysError Int × List (Nat × α) :=
  match proc.cstr path with
  | none => (Except.error SysError.Inval, proc.files)
  | some p =>
    match getInode p with
    | Except.error e => (Except.error e, proc.files)
    | Except.ok inode =>
      let fd := (findFreeFd (proc.files.map Prod.fst)).getD 0
      (Except.ok (Int.ofNat fd), mapInsert fd (mkHandle inode) proc.files)

/-- Embedding of `sys_dup2` (src/kernel/src/syscall/fs.rs): if `fd2` is
already a key of the file table, `Err(Inval)`; look up `fd1`
(`get_file`), else `Err(Inval)`; insert a clone of the handle of `fd1` at
`fd2` and return 0. -/
def sys_dup2 (proc : ProcState α) (fd1 fd2 : Nat) :
    Except SysError Int × List (Nat × α) :=
  match proc.files.lookup fd2 with
  | some _ => (Except.error SysError.Inval, proc.files)
  | none =>
    match proc.files.lookup fd1 with
    | none => (Except.error SysError.Inval, proc.files)
    | some f => (Except.ok 0, mapInsert fd2 f proc.files)

/- Search lemmas for `findFreeFrom`. -/

theorem findFreeFrom_some (s : Nat → Bool) :
    ∀ fuel i r, findFreeFrom s i fuel = some r →
      s r = false ∧ i ≤ r ∧ r < i + fuel ∧ ∀ j, i ≤ j → j < r → s j = true := by
  intro fuel
  induction fuel with
  | zero => intro i r h; simp [findFreeFrom] at h
  | succ n ih =>
    intro i r h
    rw [findFreeFrom] at h
    cases hs : s i with
    | true =>
      rw [hs] at h
      simp only [if_true] at h
      obtain ⟨h1, h2, h3, h4⟩ := ih (i + 1) r h
      refine ⟨h1, by omega, by omega, ?_⟩
      intro j hj1 hj2
      rcases Nat.eq_or_lt_of_le hj1 with he | hl
      · rw [← he]; exact hs
      · exact h4 j hl hj2
    | false =>
      rw [hs] at h
      simp only [Bool.false_eq_true, if_false, Option.some.injEq] at h
      subst h
      exact ⟨hs, Nat.le_refl i, by omega, fun j hj1 hj2 => absurd hj1 (by omega)⟩

theorem findFreeFrom_isSome (s : Nat → Bool) :
    ∀ fuel i j0, i ≤ j0 → j0 < i + fuel → s j0 = false →
      ∃ r, findFreeFrom s i fuel = some r := by
  intro fuel
  induction fuel with
  | zero => intro i j0 h1 h2 _; omega
  | succ n ih =>
    intro i j0 h1 h2 hfree
    rw [findFreeFrom]
    cases hs : s i with
    | true =>
      have hne : i ≠ j0 := fun he => by rw [he, hfree] at hs; exact Bool.noConfusion hs
      obtain ⟨r, hr⟩ := ih (i + 1) j0 (by omega) (by omega) hfree
      exact ⟨r, by simp only [if_true]; exact hr⟩
    | false =>
      exact ⟨i, by simp⟩

theorem findFreeFrom_none (s : Nat → Bool) :
    ∀ fuel i, (∀ j, i ≤ j → j < i + fuel → s j = true) →
      findFreeFrom s i fuel = none := by
  intro fuel
  induction fuel with
  | zero => intro i _; rfl
  | succ n ih =>
    intro i h
    rw [findFreeFrom, h i (Nat.le_refl i) (by omega)]
    simp only [if_true]
    exact ih (i + 1) (fun j hj1 hj2 => h j (by omega) (by omega))

/-- Inversion of the frame-id to address translation of `alloc_frame` and
`dealloc_frame`: the fixed linear map is undone by subtracting the offset
and dividing by the page size. -/
theorem frame_addr_inv (id : Nat) :
    (id * PAGE_SIZE + MEMORY_OFFSET - MEMORY_OFFSET) / PAGE_SIZE = id := by
  rw [Nat.add_sub_cancel]
  exact Nat.mul_div_cancel id (by norm_num [PAGE_SIZE])

/-- Inversion of a successful `bitalloc`: the returned id is the lowest
free bit, and the new state sets exactly that bit. -/
theorem bitalloc_some (s : BitAlloc64K) (id : Nat) (s2 : BitAlloc64K)
    (h : bitalloc s = some (id, s2)) :
    s id = false ∧ id < BITALLOC_CAP ∧ (∀ j, j < id → s j = true) ∧
      s2 = setBit s id true := by
  unfold bitalloc at h
  cases hf : findFreeFrom s 0 BITALLOC_CAP with
  | none => rw [hf] at h; exact Option.noConfusion h
  | some r =>
    rw [hf] at h
    obtain ⟨h1, _, h3, h4⟩ := findFreeFrom_some s BITALLOC_CAP 0 r hf
    simp only [Option.some.injEq, Prod.mk.injEq] at h
    obtain ⟨he, hs⟩ := h
    subst he
    exact ⟨h1, by omega, fun j hj => h4 j (Nat.zero_le j) hj, hs.symm⟩

/-- Inversion of a successful `alloc_frame`: the address is the linear
translation of the allocated id. -/
theorem alloc_frame_some (s : BitAlloc64K) (addr : Nat) (s2 : BitAlloc64K)
    (h : alloc_frame s = some (addr, s2)) :
    ∃ id, addr = id * PAGE_SIZE + MEMORY_OFFSET ∧ bitalloc s = some (id, s2) := by
  unfold alloc_frame at h
  cases hb : bitalloc s with
  | none => rw [hb] at h; exact Option.noConfusion h
  | some p =>
    rw [hb] at h
    simp only [Option.map_some', Option.some.injEq, Prod.mk.injEq] at h
    obtain ⟨ha, hs⟩ := h
    subst hs
    exact ⟨p.1, ha.symm, rfl⟩

/-- Deallocating a bit that was clear before it was set restores the
original bitmap. -/
theorem bitdealloc_setBit (s : BitAlloc64K) (id : Nat) (h : s id = false) :
    bitdealloc (setBit s id true) id = s := by
  funext j
  unfold bitdealloc setBit
  by_cases hj : j = id
  · subst hj; simp [h]
  · simp [hj]

/-- Claim C4: frame-id to physical-address translation is the pure linear
map id * PAGE_SIZE + MEMORY_OFFSET, inverted by the arithmetic of
dealloc_frame; for every allocator state, calling dealloc_frame on the
address just returned by a successful alloc_frame clears exactly the bit
that alloc_frame set (the resulting state equals the prior state
pointwise) and restores the prior free count. -/
theorem alloc_frame_dealloc_frame_roundtrip (s : BitAlloc64K) (addr : Nat)
    (s2 : BitAlloc64K) (h : alloc_frame s = some (addr, s2)) :
    (addr - MEMORY_OFFSET) / PAGE_SIZE * PAGE_SIZE + MEMORY_OFFSET = addr ∧
    s ((addr - MEMORY_OFFSET) / PAGE_SIZE) = false ∧
    s2 ((addr - MEMORY_OFFSET) / PAGE_SIZE) = true ∧
    dealloc_frame s2 addr = s ∧
    freeCount (dealloc_frame s2 addr) = freeCount s := by
  obtain ⟨id, haddr, hb⟩ := alloc_frame_some s addr s2 h
  obtain ⟨hfree, _, _, hset⟩ := bitalloc_some s id s2 hb
  subst haddr
  rw [frame_addr_inv]
  have hde : dealloc_frame s2 (id * PAGE_SIZE + MEMORY_OFFSET) = s := by
    unfold dealloc_frame
    rw [frame_addr_inv, hset]
    exact bitdealloc_setBit s id hfree
  refine ⟨rfl, hfree, ?_, hde, by rw [hde]⟩
  rw [hset]
  unfold setBit
  simp

/-- Claim C5: alloc_frame follows the lowest-free-first policy: whenever
some frame is free, alloc_frame succeeds and returns the translation of
the minimum free index (every smaller index is allocated), and after
deallocating this first-allocated address the next alloc_frame returns
that same address and state again. -/
theorem alloc_frame_lowest_free (s : BitAlloc64K) (j0 : Nat)
    (hj : j0 < BITALLOC_CAP) (hfree : s j0 = false) :
    ∃ id s2, alloc_frame s = some (id * PAGE_SIZE + MEMORY_OFFSET, s2) ∧
      s id = false ∧ id < BITALLOC_CAP ∧ (∀ j, j < id → s j = true) ∧
      alloc_frame (dealloc_frame s2 (id * PAGE_SIZE + MEMORY_OFFSET)) =
        some (id * PAGE_SIZE + MEMORY_OFFSET, s2) := by
  obtain ⟨r, hr⟩ :=
    findFreeFrom_isSome s BITALLOC_CAP 0 j0 (Nat.zero_le j0) (by omega) hfree
  have hb : bitalloc s = some (r, setBit s r true) := by
    unfold bitalloc; rw [hr]
  have ha : alloc_frame s = some (r * PAGE_SIZE + MEMORY_OFFSET, setBit s r true) := by
    unfold alloc_frame; rw [hb]; rfl
  obtain ⟨h1, h2, h3, _⟩ := bitalloc_some s r (setBit s r true) hb
  refine ⟨r, setBit s r true, ha, h1, h2, h3, ?_⟩
  have hde : dealloc_frame (setBit s r true) (r * PAGE_SIZE + MEMORY_OFFSET) = s := by
    unfold dealloc_frame
    rw [frame_addr_inv]
    exact bitdealloc_setBit s r h1
  rw [hde, ha]

/-- Claim C6: when every one of the 64K frame ids of the fixed capacity is
allocated, alloc_frame returns none; and alloc_frame only ever returns an
address whose frame id was free in the state it was called on, never one
already handed out and not yet deallocated. -/
theorem alloc_frame_exhausted (s : BitAlloc64K)
    (hfull : ∀ j, j < BITALLOC_CAP → s j = true) :
    alloc_frame s = none ∧
    ∀ (t : BitAlloc64K) (addr : Nat) (t2 : BitAlloc64K),
      alloc_frame t = some (addr, t2) →
        t ((addr - MEMORY_OFFSET) / PAGE_SIZE) = false := by
  constructor
  · have hn : findFreeFrom s 0 BITALLOC_CAP = none :=
      findFreeFrom_none s BITALLOC_CAP 0 (fun j _ hj2 => hfull j (by omega))
    unfold alloc_frame bitalloc
    rw [hn]
    rfl
  · intro t addr t2 h
    obtain ⟨id, haddr, hb⟩ := alloc_frame_some t addr t2 h
    obtain ⟨hfree, _, _, _⟩ := bitalloc_some t id t2 hb
    rw [haddr, frame_addr_inv]
    exact hfree

/-- Claim C1 (evidence of the divergence): on x86_64, with the Frame
Allocator exhausted and the faulting address covered by a COW area,
page_fault_handler evaluates alloc_frame().unwrap() on None: the kernel
panics (the none result) instead of returning the unhandled/failure
result false to its caller. -/
theorem page_fault_handler_x86_oom_panic :
    page_fault_handler_x86 (fun _ => CowArea.cow 0) (fun _ => true) 0 = none := by
  have hn : findFreeFrom (fun _ => true) 0 BITALLOC_CAP = none :=
    findFreeFrom_none (fun _ => true) BITALLOC_CAP 0 (fun _ _ _ => rfl)
  unfold page_fault_handler_x86 alloc_frame bitalloc
  rw [hn]
  rfl

/-- Claim C3: on riscv, page_fault_handler reports unhandled (false) for
every fault address, unconditionally. -/
theorem page_fault_handler_riscv_unhandled :
    ∀ addr, page_fault_handler_riscv addr = false :=
  fun _ => rfl

/-- Witness for claim C4 at the empty allocator: the first allocation
returns frame id 0, address MEMORY_OFFSET. -/
theorem alloc_frame_dealloc_frame_roundtrip_witness :
    (MEMORY_OFFSET - MEMORY_OFFSET) / PAGE_SIZE * PAGE_SIZE + MEMORY_OFFSET =
      MEMORY_OFFSET ∧
    (fun _ => false : BitAlloc64K) ((MEMORY_OFFSET - MEMORY_OFFSET) / PAGE_SIZE) =
      false ∧
    setBit (fun _ => false) 0 true ((MEMORY_OFFSET - MEMORY_OFFSET) / PAGE_SIZE) =
      true ∧
    dealloc_frame (setBit (fun _ => false) 0 true) MEMORY_OFFSET =
      (fun _ => false) ∧
    freeCount (dealloc_frame (setBit (fun _ => false) 0 true) MEMORY_OFFSET) =
      freeCount (fun _ => false) :=
  alloc_frame_dealloc_frame_roundtrip (fun _ => false) MEMORY_OFFSET
    (setBit (fun _ => false) 0 true) rfl

/-- Witness for claim C5 at the empty allocator. -/
theorem alloc_frame_lowest_free_witness :
    ∃ id s2, alloc_frame (fun _ => false) =
        some (id * PAGE_SIZE + MEMORY_OFFSET, s2) ∧
      (fun _ => false : BitAlloc64K) id = false ∧ id < BITALLOC_CAP ∧
      (∀ j, j < id → (fun _ => false : BitAlloc64K) j = true) ∧
      alloc_frame (dealloc_frame s2 (id * PAGE_SIZE + MEMORY_OFFSET)) =
        some (id * PAGE_SIZE + MEMORY_OFFSET, s2) :=
  alloc_frame_lowest_free (fun _ => false) 0 (by norm_num [BITALLOC_CAP]) rfl

/-- Witness for claim C6 at the fully allocated bitmap. -/
theorem alloc_frame_exhausted_witness :
    alloc_frame (fun _ => true) = none :=
  (alloc_frame_exhausted (fun _ => true) (fun _ _ => rfl)).1

/-- Every key of the file table is bounded by `maxKey`. -/
theorem mem_le_maxKey (keys : List Nat) : ∀ k, k ∈ keys → k ≤ maxKey keys := by
  induction keys with
  | nil => intro k hk; exact absurd hk (List.not_mem_nil k)
  | cons x xs ih =>
    intro k hk
    rcases List.mem_cons.mp hk with he | hm
    · subst he; exact le_max_left k (maxKey xs)
    · exact Nat.le_trans (ih k hm) (le_max_right x (maxKey xs))

/-- The file-descriptor search of `sys_open` always succeeds (the Rust
unwrap cannot fail) and returns the smallest descriptor from 3 up that is
not a key of the file table. -/
theorem findFreeFd_spec (keys : List Nat) :
    ∃ r, findFreeFd keys = some r ∧ 3 ≤ r ∧ r ∉ keys ∧
      ∀ j, 3 ≤ j → j < r → j ∈ keys := by
  have hfree : (fun i => decide (i ∈ keys)) (max 3 (maxKey keys + 1)) = false := by
    simp only [decide_eq_false_iff_not]
    intro hmem
    have h1 : max 3 (maxKey keys + 1) ≤ maxKey keys := mem_le_maxKey keys _ hmem
    have h2 : maxKey keys + 1 ≤ max 3 (maxKey keys + 1) :=
      le_max_right 3 (maxKey keys + 1)
    omega
  have hlt : max 3 (maxKey keys + 1) < 3 + (maxKey keys + 2) :=
    max_lt (by omega) (by omega)
  obtain ⟨r, hr⟩ := findFreeFrom_isSome (fun i => decide (i ∈ keys))
    (maxKey keys + 2) 3 (max 3 (maxKey keys + 1)) (le_max_left 3 _) hlt hfree
  obtain ⟨h1, h2, _, h4⟩ := findFreeFrom_some (fun i => decide (i ∈ keys))
    (maxKey keys + 2) 3 r hr
  refine ⟨r, hr, h2, ?_, ?_⟩
  · exact of_decide_eq_false h1
  · intro j hj1 hj2
    exact of_decide_eq_true (h4 j hj1 hj2)

/-- Claim C2: sys_read returns Err(Inval) when the writable check on the
byte range fails and sys_write returns Err(Inval) when the readable check
fails, in both cases before the user pointer is dereferenced or the file
table is touched: the result is the same for every file-descriptor value
and every behaviour of the file read/write, and the file table is
returned unchanged. -/
theorem sys_read_write_invalid_range {α : Type} (proc : ProcState α)
    (fd base len : Nat) (readF writeF : α → Except SysError (Nat × α)) :
    (proc.writable base len = false →
      sys_read proc fd base len readF = (Except.error SysError.Inval, proc.files)) ∧
    (proc.readable base len = false →
      sys_write proc fd base len writeF = (Except.error SysError.Inval, proc.files)) := by
  constructor
  · intro hw
    unfold sys_read
    rw [hw]
    rfl
  · intro hr
    unfold sys_write
    rw [hr]
    rfl

/-- Witness for claim C2 at concrete process states: sys_read fails on a
range that is readable but not writable, and sys_write fails on a range
that is writable but not readable, in both cases with a valid open
descriptor and a file operation that would succeed — only the failing
check of the respective syscall causes the error. -/
theorem sys_read_write_invalid_range_witness :
    sys_read (ProcState.mk (fun _ _ => true) (fun _ _ => false) (fun _ => none)
        ([(3, ())] : List (Nat × Unit))) 3 0 16 (fun f => Except.ok (16, f)) =
      (Except.error SysError.Inval, [(3, ())]) ∧
    sys_write (ProcState.mk (fun _ _ => false) (fun _ _ => true) (fun _ => none)
        ([(3, ())] : List (Nat × Unit))) 3 0 16 (fun f => Except.ok (16, f)) =
      (Except.error SysError.Inval, [(3, ())]) :=
  ⟨(sys_read_write_invalid_range
      (ProcState.mk (fun _ _ => true) (fun _ _ => false) (fun _ => none) [(3, ())])
      3 0 16 (fun f => Except.ok (16, f)) (fun f => Except.ok (16, f))).1 rfl,
   (sys_read_write_invalid_range
      (ProcState.mk (fun _ _ => false) (fun _ _ => true) (fun _ => none) [(3, ())])
      3 0 16 (fun f => Except.ok (16, f)) (fun f => Except.ok (16, f))).2 rfl⟩

/-- Claim C7: sys_open returns Err(Inval) when the path pointer cannot be
validated and copied as a null-terminated readable byte run
(check_and_clone_cstr returns None), before any file-system lookup (the
result is the same for every VFS behaviour) and before any file-table
mutation (the file table is returned unchanged). -/
theorem sys_open_invalid_cstr {α ι : Type} (proc : ProcState α)
    (getInode : List Nat → Except SysError ι) (mkHandle : ι → α) (path : Nat)
    (h : proc.cstr path = none) :
    sys_open proc getInode mkHandle path = (Except.error SysError.Inval, proc.files) := by
  unfold sys_open
  rw [h]

/-- Witness for claim C7 at a concrete process state. -/
theorem sys_open_invalid_cstr_witness :
    sys_open (ProcState.mk (fun _ _ => true) (fun _ _ => true) (fun _ => none)
        ([(3, ())] : List (Nat × Unit)))
      (fun _ => Except.ok ()) (fun _ => ()) 0 =
      (Except.error SysError.Inval, [(3, ())]) :=
  sys_open_invalid_cstr
    (ProcState.mk (fun _ _ => true) (fun _ _ => true) (fun _ => none) [(3, ())])
    (fun _ => Except.ok ()) (fun _ => ()) 0 rfl

/-- Claim C8: alloc_stack returns a Stack of size exactly 0x8000 bytes
(top = bottom + 0x8000) whose bottom is aligned to the stack size, and
the backing heap allocation is never freed by this primitive: every
previously live allocation is still live afterwards and the new one is
live as well. The alignment hypothesis is the Rust allocation contract
for the repr(align(0x8000)) buffer type. -/
theorem alloc_stack_size_align_leak (h : HeapState) (bottom : Nat)
    (halign : bottom % STACK_SIZE = 0) :
    (alloc_stack h bottom).1.top = (alloc_stack h bottom).1.bottom + 0x8000 ∧
    (alloc_stack h bottom).1.bottom % 0x8000 = 0 ∧
    (∀ a, a ∈ h.live → a ∈ (alloc_stack h bottom).2.live) ∧
    (alloc_stack h bottom).1.bottom ∈ (alloc_stack h bottom).2.live := by
  refine ⟨rfl, halign, ?_, ?_⟩
  · intro a ha
    exact List.mem_cons_of_mem bottom ha
  · exact List.mem_cons_self bottom _

/-- Witness for claim C8 at a concrete heap state and base address. -/
theorem alloc_stack_size_align_leak_witness :
    (alloc_stack (HeapState.mk [4096]) 0x10000).1.top =
      (alloc_stack (HeapState.mk [4096]) 0x10000).1.bottom + 0x8000 ∧
    (alloc_stack (HeapState.mk [4096]) 0x10000).1.bottom % 0x8000 = 0 ∧
    (∀ a, a ∈ (HeapState.mk [4096]).live →
      a ∈ (alloc_stack (HeapState.mk [4096]) 0x10000).2.live) ∧
    (alloc_stack (HeapState.mk [4096]) 0x10000).1.bottom ∈
      (alloc_stack (HeapState.mk [4096]) 0x10000).2.live :=
  alloc_stack_size_align_leak (HeapState.mk [4096]) 0x10000 (by decide)

/-- Claim C9: on success, sys_open returns the smallest file descriptor
greater than or equal to 3 that is not a key of the file table (so 0, 1
and 2 are never assigned), and inserts the new file handle under that
descriptor. -/
theorem sys_open_lowest_free_fd {α ι : Type} (proc : ProcState α)
    (getInode : List Nat → Except SysError ι) (mkHandle : ι → α) (path : Nat)
    (fdr : Int) (files2 : List (Nat × α))
    (h : sys_open proc getInode mkHandle path = (Except.ok fdr, files2)) :
    ∃ fd : Nat, fdr = Int.ofNat fd ∧ 3 ≤ fd ∧
      fd ∉ proc.files.map Prod.fst ∧
      (∀ j, 3 ≤ j → j < fd → j ∈ proc.files.map Prod.fst) ∧
      ∃ p i, proc.cstr path = some p ∧ getInode p = Except.ok i ∧
        files2 = mapInsert fd (mkHandle i) proc.files := by
  unfold sys_open at h
  split at h
  next hc => exact absurd h (by simp)
  next p hc =>
    split at h
    next e hg => exact absurd h (by simp)
    next inode hg =>
      simp only [Prod.mk.injEq, Except.ok.injEq] at h
      obtain ⟨hfd, hfiles⟩ := h
      obtain ⟨r, hr, h3, hnot, hmin⟩ := findFreeFd_spec (proc.files.map Prod.fst)
      rw [hr] at hfd hfiles
      simp only [Option.getD_some] at hfd hfiles
      exact ⟨r, hfd.symm, h3, hnot, hmin, p, inode, hc, hg, hfiles.symm⟩

/-- Witness for claim C9 at a concrete process state: the assigned
descriptor is 3. -/
theorem sys_open_lowest_free_fd_witness :
    ∃ fd : Nat, (3 : Int) = Int.ofNat fd ∧ 3 ≤ fd ∧
      fd ∉ ([] : List (Nat × Unit)).map Prod.fst ∧
      (∀ j, 3 ≤ j → j < fd → j ∈ ([] : List (Nat × Unit)).map Prod.fst) ∧
      ∃ p i, (fun _ => some [104, 105] : Nat → Option (List Nat)) 0 = some p ∧
        (fun _ => (Except.ok () : Except SysError Unit)) p = Except.ok i ∧
        [(3, ())] = mapInsert fd ((fun _ => ()) i) ([] : List (Nat × Unit)) :=
  sys_open_lowest_free_fd
    (ProcState.mk (fun _ _ => true) (fun _ _ => true) (fun _ => some [104, 105]) [])
    (fun _ => (Except.ok () : Except SysError Unit)) (fun _ => ()) 0 3 [(3, ())] rfl

/-- Claim C10: sys_dup2 returns Err(Inval) with the file table unchanged
whenever the target descriptor fd2 is already open, or fd2 is free but
the source descriptor fd1 is not open; only when fd1 is open and fd2 is
free does it insert a clone of the handle of fd1 at fd2 and return
Ok(0). -/
theorem sys_dup2_cases {α : Type} (proc : ProcState α) (fd1 fd2 : Nat) :
    ((proc.files.lookup fd2).isSome = true →
      sys_dup2 proc fd1 fd2 = (Except.error SysError.Inval, proc.files)) ∧
    (proc.files.lookup fd2 = none → proc.files.lookup fd1 = none →
      sys_dup2 proc fd1 fd2 = (Except.error SysError.Inval, proc.files)) ∧
    (∀ f, proc.files.lookup fd2 = none → proc.files.lookup fd1 = some f →
      sys_dup2 proc fd1 fd2 = (Except.ok 0, mapInsert fd2 f proc.files)) := by
  refine ⟨?_, ?_, ?_⟩
  · intro h2
    unfold sys_dup2
    cases hl : proc.files.lookup fd2 with
    | none => rw [hl] at h2; exact absurd h2 (by simp)
    | some f => rfl
  · intro h2 h1
    unfold sys_dup2
    rw [h2, h1]
  · intro f h2 h1
    unfold sys_dup2
    rw [h2, h1]

/-- Witness for claim C10: all three cases at a concrete file table
holding only descriptor 3. -/
theorem sys_dup2_cases_witness :
    sys_dup2 (ProcState.mk (fun _ _ => true) (fun _ _ => true) (fun _ => none)
        ([(3, ())] : List (Nat × Unit))) 9 3 =
      (Except.error SysError.Inval, [(3, ())]) ∧
    sys_dup2 (ProcState.mk (fun _ _ => true) (fun _ _ => true) (fun _ => none)
        ([(3, ())] : List (Nat × Unit))) 9 4 =
      (Except.error SysError.Inval, [(3, ())]) ∧
    sys_dup2 (ProcState.mk (fun _ _ => true) (fun _ _ => true) (fun _ => none)
        ([(3, ())] : List (Nat × Unit))) 3 4 =
      (Except.ok 0, mapInsert 4 () [(3, ())]) :=
  ⟨(sys_dup2_cases (ProcState.mk (fun _ _ => true) (fun _ _ => true)
      (fun _ => none) [(3, ())]) 9 3).1 rfl,
   (sys_dup2_cases (ProcState.mk (fun _ _ => true) (fun _ _ => true)
      (fun _ => none) [(3, ())]) 9 4).2.1 rfl rfl,
   (sys_dup2_cases (ProcState.mk (fun _ _ => true) (fun _ _ => true)
      (fun _ => none) [(3, ())]) 3 4).2.2 () rfl rfl⟩

end RCore
